import Mathlib

/-!
Verification of the CAVI inference engine of the pCMF repository
(`cavi_new.py`, class `CoordinateAscentVI`).

Shallow embedding conventions:
* dense numpy arrays become `Fin`-indexed functions into `ℝ`
  (the claims are about the update equations in exact arithmetic);
* the external numeric helpers (`scipy.special.digamma`, and
  `utils.psi_inverse` / `utils.log_likelihood`, which the spec (§1, §6)
  declares out of scope and external) are passed as explicit function
  parameters;
* `np.random.rand` draws are passed in as explicit arrays;
* in-place mutation becomes explicit state passing: every Python method
  that writes an instance field returns the new state.
-/

namespace PCMF

/-- Instance state of `CoordinateAscentVI` (`__init__`, lines 17-33):
`N` observations, `P` genes, `K` latent dimensions.  `alpha` is stored
broadcast to `2×N×K`, `pi` broadcast to `N×P`, exactly as the constructor
stores them. -/
structure VIState (N P K : ℕ) where
  X : Fin N → Fin P → ℝ
  alpha : Fin 2 → Fin N → Fin K → ℝ
  beta : Fin 2 → Fin P → Fin K → ℝ
  pi : Fin N → Fin P → ℝ
  logit_pi : Fin N → Fin P → ℝ
  a : Fin 2 → Fin N → Fin K → ℝ
  b : Fin 2 → Fin P → Fin K → ℝ
  r : Fin N → Fin P → Fin K → ℝ
  p : Fin N → Fin P → ℝ

/-- Constructor `CoordinateAscentVI.__init__(X, alpha, beta, pi)`
(lines 17-33).  `alpha` comes in as `2×K` and is broadcast over rows,
`pi` comes in as a `P`-vector and is broadcast over rows;
`logit_pi = log(pi/(1-pi))`; the variational parameters are initialized
as `ones + rand` for `a`, `b` and constant `0.5` for `r`, `p`
(the `np.random.rand` draws are the explicit `randA`/`randB` arguments).
There is no validation of any kind in the source constructor, so the
embedding is a total function. -/
noncomputable def initVI {N P K : ℕ} (X : Fin N → Fin P → ℝ)
    (alpha : Fin 2 → Fin K → ℝ) (beta : Fin 2 → Fin P → Fin K → ℝ)
    (pi : Fin P → ℝ)
    (randA : Fin 2 → Fin N → Fin K → ℝ) (randB : Fin 2 → Fin P → Fin K → ℝ) :
    VIState N P K where
  X := X
  alpha := fun l _ k => alpha l k
  beta := beta
  pi := fun _ j => pi j
  logit_pi := fun _ j => Real.log (pi j / (1 - pi j))
  a := fun l i k => 1 + randA l i k
  b := fun l j k => 1 + randB l j k
  r := fun _ _ _ => 0.5
  p := fun _ _ => 0.5

/-- Method `estimate_U(a) = a[0]/a[1]` (lines 35-36). -/
noncomputable def estimate_U {M K : ℕ} (a : Fin 2 → Fin M → Fin K → ℝ) :
    Fin M → Fin K → ℝ :=
  fun i k => a 0 i k / a 1 i k

/-- Method `estimate_V(b) = b[0]/b[1]` (lines 38-39). -/
noncomputable def estimate_V {P K : ℕ} (b : Fin 2 → Fin P → Fin K → ℝ) :
    Fin P → Fin K → ℝ :=
  fun j k => b 0 j k / b 1 j k

/-- Method `update_a(self, a, X, p, r)` (lines 73-98).  The Python loop
runs `i` over `X.shape[0]` rows (called with `M = N` during training and
`M = N_test ≤ N` from `predictive_ll`, where `self.alpha` is indexed at
the test row, hence the `hM : M ≤ N` cast) and accumulates
`total1 = Σ_j p[i,j]*X[i,j]*r[i,j,k]` and
`total2 = Σ_j p[i,j]*b[0,j,k]/b[1,j,k]` by a sequential fold, writing
`a[0,i,k] = alpha[0,i,k] + total1`, `a[1,i,k] = alpha[1,i,k] + total2`.
Every entry of the result is overwritten, so the incoming `a` is unused. -/
noncomputable def VIState.update_a {N P K M : ℕ} (s : VIState N P K)
    (hM : M ≤ N) (a : Fin 2 → Fin M → Fin K → ℝ) (X : Fin M → Fin P → ℝ)
    (p : Fin M → Fin P → ℝ) (r : Fin M → Fin P → Fin K → ℝ) :
    Fin 2 → Fin M → Fin K → ℝ :=
  fun l i k =>
    if l = 0 then
      s.alpha 0 (Fin.castLE hM i) k +
        (List.finRange P).foldl (fun acc j => acc + p i j * X i j * r i j k) 0
    else
      s.alpha 1 (Fin.castLE hM i) k +
        (List.finRange P).foldl
          (fun acc j => acc + p i j * s.b 0 j k / s.b 1 j k) 0

/-- Method `update_b(self)` (lines 106-128): symmetric to `update_a`
over columns, reading `self.p`, `self.X`, `self.r`, `self.a`,
`self.beta`; returns the new value of the field `b`. -/
noncomputable def VIState.update_b {N P K : ℕ} (s : VIState N P K) :
    Fin 2 → Fin P → Fin K → ℝ :=
  fun l j k =>
    if l = 0 then
      s.beta 0 j k +
        (List.finRange N).foldl
          (fun acc i => acc + s.p i j * s.X i j * s.r i j k) 0
    else
      s.beta 1 j k +
        (List.finRange N).foldl
          (fun acc i => acc + s.p i j * s.a 0 i k / s.a 1 i k) 0

/-- Method `update_p(self, p, X, a, r)` (lines 140-160):
`logit_p[i,j] = logit_pi[i,j] - Σ_k a[0,i,k]/a[1,i,k]*b[0,j,k]/b[1,j,k]`,
then `p = exp(logit_p)/(1+exp(logit_p))`, then `p[X != 0] = 1`.
The argument `r` is taken but never read, as in the source.  The incoming
`p` is rebound, not mutated, so it is unused as well. -/
noncomputable def VIState.update_p {N P K M : ℕ} (s : VIState N P K)
    (hM : M ≤ N) (p : Fin M → Fin P → ℝ) (X : Fin M → Fin P → ℝ)
    (a : Fin 2 → Fin M → Fin K → ℝ) (r : Fin M → Fin P → Fin K → ℝ) :
    Fin M → Fin P → ℝ :=
  fun i j =>
    if X i j ≠ 0 then 1
    else
      Real.exp (s.logit_pi (Fin.castLE hM i) j -
          ∑ k, a 0 i k / a 1 i k * s.b 0 j k / s.b 1 j k) /
        (1 + Real.exp (s.logit_pi (Fin.castLE hM i) j -
          ∑ k, a 0 i k / a 1 i k * s.b 0 j k / s.b 1 j k))

/-- Method `update_r(self, r, X, a, p)` (lines 162-185):
`ar = digamma(a[0]) - log(a[1])`, `br = digamma(b[0]) - log(b[1])`,
`aux = exp(ar[i,:] + br[j,:])`, `r[i,j,:] = aux / sum(aux)`.
`dg` is the external `scipy.special.digamma`.  The arguments `r` (fully
overwritten) and `p` (never read) are unused, as in the source. -/
noncomputable def VIState.update_r {N P K M : ℕ} (dg : ℝ → ℝ)
    (s : VIState N P K) (r : Fin M → Fin P → Fin K → ℝ)
    (X : Fin M → Fin P → ℝ) (a : Fin 2 → Fin M → Fin K → ℝ)
    (p : Fin M → Fin P → ℝ) :
    Fin M → Fin P → Fin K → ℝ :=
  fun i j k =>
    Real.exp ((dg (a 0 i k) - Real.log (a 1 i k)) +
        (dg (s.b 0 j k) - Real.log (s.b 1 j k))) /
      ∑ k', Real.exp ((dg (a 0 i k') - Real.log (a 1 i k')) +
        (dg (s.b 0 j k') - Real.log (s.b 1 j k')))

/-- Helper: a left fold accumulating `acc + f j` over a list computes the
initial value plus the sum of `f` over the list. -/
theorem foldl_add_eq_sum {ι : Type _} (l : List ι) (f : ι → ℝ) (x : ℝ) :
    l.foldl (fun acc j => acc + f j) x = x + (l.map f).sum := by
  induction l generalizing x with
  | nil => simp
  | cons hd tl ih =>
      simp only [List.foldl_cons, List.map_cons, List.sum_cons]
      rw [ih]
      ring

/-- Helper: the sequential accumulation over `List.finRange P` equals the
`Finset` sum over all of `Fin P`. -/
theorem foldl_finRange_eq_sum {n : ℕ} (f : Fin n → ℝ) :
    (List.finRange n).foldl (fun acc j => acc + f j) 0 = ∑ j, f j := by
  rw [foldl_add_eq_sum, Fin.sum_univ_def, zero_add]

/-- C1: for every row `i` and latent `k`, `update_a` returns
`a[0,i,k] = alpha[0,i,k] + Σ_j p[i,j]·X[i,j]·r[i,j,k]` and
`a[1,i,k] = alpha[1,i,k] + Σ_j p[i,j]·b[0,j,k]/b[1,j,k]`, with `b` the
current column-factor variational parameter of the state. -/
theorem update_a_closed_form {N P K M : ℕ} (s : VIState N P K) (hM : M ≤ N)
    (a : Fin 2 → Fin M → Fin K → ℝ) (X : Fin M → Fin P → ℝ)
    (p : Fin M → Fin P → ℝ) (r : Fin M → Fin P → Fin K → ℝ)
    (i : Fin M) (k : Fin K) :
    s.update_a hM a X p r 0 i k
        = s.alpha 0 (Fin.castLE hM i) k + ∑ j, p i j * X i j * r i j k ∧
      s.update_a hM a X p r 1 i k
        = s.alpha 1 (Fin.castLE hM i) k +
            ∑ j, p i j * s.b 0 j k / s.b 1 j k := by
  constructor
  · show (if (0 : Fin 2) = 0 then _ else _) = _
    rw [if_pos rfl, foldl_finRange_eq_sum (fun j => p i j * X i j * r i j k)]
  · show (if (1 : Fin 2) = 0 then _ else _) = _
    rw [if_neg (by decide),
      foldl_finRange_eq_sum (fun j => p i j * s.b 0 j k / s.b 1 j k)]

/-- Concrete all-ones-flavoured state on `N = P = K = 1` used to
instantiate the hypothesis-bearing theorems. -/
noncomputable def oneState : VIState 1 1 1 where
  X := fun _ _ => 0
  alpha := fun _ _ _ => 1
  beta := fun _ _ _ => 1
  pi := fun _ _ => 1 / 2
  logit_pi := fun _ _ => Real.log ((1 / 2) / (1 - 1 / 2))
  a := fun _ _ _ => 1
  b := fun _ _ _ => 1
  r := fun _ _ _ => 1 / 2
  p := fun _ _ => 1 / 2

/-- Witness for C1 at the concrete `1×1×1` state. -/
theorem update_a_closed_form_witness :
    oneState.update_a (le_refl 1) oneState.a oneState.X oneState.p
        oneState.r 0 0 0
      = oneState.alpha 0 (Fin.castLE (le_refl 1) 0) 0 +
          ∑ j, oneState.p 0 j * oneState.X 0 j * oneState.r 0 j 0 ∧
    oneState.update_a (le_refl 1) oneState.a oneState.X oneState.p
        oneState.r 1 0 0
      = oneState.alpha 1 (Fin.castLE (le_refl 1) 0) 0 +
          ∑ j, oneState.p 0 j * oneState.b 0 j 0 / oneState.b 1 j 0 :=
  update_a_closed_form oneState (le_refl 1) oneState.a oneState.X
    oneState.p oneState.r 0 0

/-- C2: for every valid input state (strictly positive `a` and `b`), each
`K`-vector `update_r[i,j,:]` has non-negative entries and sums to 1.
(`dg` is the external digamma; the property holds for any value of it,
since `exp` of any real is positive.) -/
theorem update_r_rows_simplex {N P K M : ℕ} (dg : ℝ → ℝ) (s : VIState N P K)
    (r : Fin M → Fin P → Fin K → ℝ) (X : Fin M → Fin P → ℝ)
    (a : Fin 2 → Fin M → Fin K → ℝ) (p : Fin M → Fin P → ℝ)
    (hK : 0 < K)
    (ha : ∀ l i k, 0 < a l i k) (hb : ∀ l j k, 0 < s.b l j k)
    (i : Fin M) (j : Fin P) :
    (∀ k, 0 ≤ s.update_r dg r X a p i j k) ∧
      ∑ k, s.update_r dg r X a p i j k = 1 := by
  have hne : (Finset.univ : Finset (Fin K)).Nonempty := by
    have : Nonempty (Fin K) := Fin.pos_iff_nonempty.mp hK
    exact Finset.univ_nonempty
  have hsum : 0 < ∑ k' : Fin K,
      Real.exp ((dg (a 0 i k') - Real.log (a 1 i k')) +
        (dg (s.b 0 j k') - Real.log (s.b 1 j k'))) :=
    Finset.sum_pos (fun k' _ => Real.exp_pos _) hne
  constructor
  · intro k
    exact div_nonneg (Real.exp_pos _).le hsum.le
  · rw [show (∑ k, s.update_r dg r X a p i j k) =
        (∑ k, Real.exp ((dg (a 0 i k) - Real.log (a 1 i k)) +
          (dg (s.b 0 j k) - Real.log (s.b 1 j k)))) /
        (∑ k', Real.exp ((dg (a 0 i k') - Real.log (a 1 i k')) +
          (dg (s.b 0 j k') - Real.log (s.b 1 j k')))) from
        (Finset.sum_div _ _ _).symm]
    exact div_self hsum.ne'

/-- Witness for C2 at the concrete `1×1×1` state with digamma
instantiated to the identity function. -/
theorem update_r_rows_simplex_witness :
    (∀ k, 0 ≤ oneState.update_r (fun x => x) oneState.r oneState.X
        oneState.a oneState.p 0 0 k) ∧
      ∑ k, oneState.update_r (fun x => x) oneState.r oneState.X
        oneState.a oneState.p 0 0 k = 1 :=
  update_r_rows_simplex (fun x => x) oneState oneState.r oneState.X
    oneState.a oneState.p (by norm_num)
    (fun _ _ _ => by norm_num [oneState]) (fun _ _ _ => by norm_num [oneState])
    0 0

/-- C3: every entry of `update_p` lies in `[0,1]`; where `X[i,j] ≠ 0` the
entry is exactly `1`; where `X[i,j] = 0` it is the logistic sigmoid of
`logit(pi[i,j]) - Σ_k E[U_ik]·E[V_jk]` (the hypothesis `hlp` records the
constructor invariant `logit_pi = log(pi/(1-pi))`). -/
theorem update_p_range {N P K M : ℕ} (s : VIState N P K) (hM : M ≤ N)
    (p : Fin M → Fin P → ℝ) (X : Fin M → Fin P → ℝ)
    (a : Fin 2 → Fin M → Fin K → ℝ) (r : Fin M → Fin P → Fin K → ℝ)
    (i : Fin M) (j : Fin P)
    (hlp : s.logit_pi (Fin.castLE hM i) j =
      Real.log (s.pi (Fin.castLE hM i) j / (1 - s.pi (Fin.castLE hM i) j))) :
    (0 ≤ s.update_p hM p X a r i j ∧ s.update_p hM p X a r i j ≤ 1) ∧
      (X i j ≠ 0 → s.update_p hM p X a r i j = 1) ∧
      (X i j = 0 → s.update_p hM p X a r i j =
        Real.exp (Real.log (s.pi (Fin.castLE hM i) j /
            (1 - s.pi (Fin.castLE hM i) j)) -
            ∑ k, a 0 i k / a 1 i k * s.b 0 j k / s.b 1 j k) /
          (1 + Real.exp (Real.log (s.pi (Fin.castLE hM i) j /
            (1 - s.pi (Fin.castLE hM i) j)) -
            ∑ k, a 0 i k / a 1 i k * s.b 0 j k / s.b 1 j k))) := by
  have hsig : ∀ t : ℝ, 0 ≤ Real.exp t / (1 + Real.exp t) ∧
      Real.exp t / (1 + Real.exp t) ≤ 1 := by
    intro t
    have h1 : (0 : ℝ) < 1 + Real.exp t := by positivity
    constructor
    · exact div_nonneg (Real.exp_pos t).le h1.le
    · rw [div_le_one h1]
      linarith [Real.exp_pos t]
  refine ⟨?_, ?_, ?_⟩
  · unfold VIState.update_p
    by_cases hX : X i j ≠ 0
    · rw [if_pos hX]; norm_num
    · rw [if_neg hX]; exact hsig _
  · intro hX
    unfold VIState.update_p
    rw [if_pos hX]
  · intro hX
    unfold VIState.update_p
    rw [if_neg (by simpa using hX), hlp]

/-- Witness for C3 at the concrete `1×1×1` state (whose `X` entry is 0,
so the sigmoid branch is exercised, and whose `logit_pi` satisfies the
constructor invariant definitionally). -/
theorem update_p_range_witness :
    (0 ≤ oneState.update_p (le_refl 1) oneState.p oneState.X oneState.a
          oneState.r 0 0 ∧
        oneState.update_p (le_refl 1) oneState.p oneState.X oneState.a
          oneState.r 0 0 ≤ 1) ∧
      (oneState.X 0 0 ≠ 0 → oneState.update_p (le_refl 1) oneState.p
          oneState.X oneState.a oneState.r 0 0 = 1) ∧
      (oneState.X 0 0 = 0 → oneState.update_p (le_refl 1) oneState.p
          oneState.X oneState.a oneState.r 0 0 =
        Real.exp (Real.log (oneState.pi (Fin.castLE (le_refl 1) 0) 0 /
            (1 - oneState.pi (Fin.castLE (le_refl 1) 0) 0)) -
            ∑ k, oneState.a 0 0 k / oneState.a 1 0 k * oneState.b 0 0 k /
              oneState.b 1 0 k) /
          (1 + Real.exp (Real.log (oneState.pi (Fin.castLE (le_refl 1) 0) 0 /
            (1 - oneState.pi (Fin.castLE (le_refl 1) 0) 0)) -
            ∑ k, oneState.a 0 0 k / oneState.a 1 0 k * oneState.b 0 0 k /
              oneState.b 1 0 k))) :=
  update_p_range oneState (le_refl 1) oneState.p oneState.X oneState.a
    oneState.r 0 0 rfl

/-- C4: with strictly positive priors `alpha`, `beta`, non-negative data
and weights, and strictly positive current `a`, `b`, both `update_a` and
`update_b` produce strictly positive shape and rate entries. -/
theorem update_a_update_b_pos {N P K M : ℕ} (s : VIState N P K)
    (hM : M ≤ N) (a : Fin 2 → Fin M → Fin K → ℝ) (X : Fin M → Fin P → ℝ)
    (p : Fin M → Fin P → ℝ) (r : Fin M → Fin P → Fin K → ℝ)
    (hα : ∀ l i k, 0 < s.alpha l i k) (hβ : ∀ l j k, 0 < s.beta l j k)
    (hX : ∀ i j, 0 ≤ X i j) (hp : ∀ i j, 0 ≤ p i j)
    (hr : ∀ i j k, 0 ≤ r i j k) (hb : ∀ l j k, 0 < s.b l j k)
    (hXs : ∀ i j, 0 ≤ s.X i j) (hps : ∀ i j, 0 ≤ s.p i j)
    (hrs : ∀ i j k, 0 ≤ s.r i j k) (ha : ∀ l i k, 0 < s.a l i k) :
    (∀ l i k, 0 < s.update_a hM a X p r l i k) ∧
      (∀ l j k, 0 < s.update_b l j k) := by
  constructor
  · intro l i k
    unfold VIState.update_a
    by_cases hl : l = 0
    · rw [if_pos hl,
        foldl_finRange_eq_sum (fun j => p i j * X i j * r i j k)]
      refine add_pos_of_pos_of_nonneg (hα _ _ _) ?_
      exact Finset.sum_nonneg fun j _ =>
        mul_nonneg (mul_nonneg (hp i j) (hX i j)) (hr i j k)
    · rw [if_neg hl,
        foldl_finRange_eq_sum (fun j => p i j * s.b 0 j k / s.b 1 j k)]
      refine add_pos_of_pos_of_nonneg (hα _ _ _) ?_
      exact Finset.sum_nonneg fun j _ =>
        div_nonneg (mul_nonneg (hp i j) (hb 0 j k).le) (hb 1 j k).le
  · intro l j k
    unfold VIState.update_b
    by_cases hl : l = 0
    · rw [if_pos hl,
        foldl_finRange_eq_sum (fun i => s.p i j * s.X i j * s.r i j k)]
      refine add_pos_of_pos_of_nonneg (hβ _ _ _) ?_
      exact Finset.sum_nonneg fun i _ =>
        mul_nonneg (mul_nonneg (hps i j) (hXs i j)) (hrs i j k)
    · rw [if_neg hl,
        foldl_finRange_eq_sum (fun i => s.p i j * s.a 0 i k / s.a 1 i k)]
      refine add_pos_of_pos_of_nonneg (hβ _ _ _) ?_
      exact Finset.sum_nonneg fun i _ =>
        div_nonneg (mul_nonneg (hps i j) (ha 0 i k).le) (ha 1 i k).le

/-- Witness for C4 at the concrete `1×1×1` state. -/
theorem update_a_update_b_pos_witness :
    (∀ l i k, 0 < oneState.update_a (le_refl 1) oneState.a oneState.X
        oneState.p oneState.r l i k) ∧
      (∀ l j k, 0 < oneState.update_b l j k) :=
  update_a_update_b_pos oneState (le_refl 1) oneState.a oneState.X
    oneState.p oneState.r
    (fun _ _ _ => by norm_num [oneState]) (fun _ _ _ => by norm_num [oneState])
    (fun _ _ => by norm_num [oneState]) (fun _ _ => by norm_num [oneState])
    (fun _ _ _ => by norm_num [oneState]) (fun _ _ _ => by norm_num [oneState])
    (fun _ _ => by norm_num [oneState]) (fun _ _ => by norm_num [oneState])
    (fun _ _ _ => by norm_num [oneState]) (fun _ _ _ => by norm_num [oneState])

/-- Method `update_pi(self)` (lines 187-194): empirical-Bayes update,
`pi = mean(p, axis=0)` broadcast over rows, and the logit recomputed. -/
noncomputable def VIState.update_pi {N P K : ℕ} (s : VIState N P K) :
    VIState N P K :=
  { s with
    pi := fun _ j => (∑ i, s.p i j) / N
    logit_pi := fun _ j =>
      Real.log (((∑ i, s.p i j) / N) / (1 - (∑ i, s.p i j) / N)) }

/-- Method `update_alpha(self)` (lines 196-206): empirical-Bayes update
of the Gamma prior over rows.  The source computes, per latent `k`,
`y_k = log(alpha[1][0,k]) + mean_i(digamma(a[0][i,k]) - log(a[1][i,k]))`
(the row-0 read of `alpha[1]` needs `N ≥ 1`), sets the new shape
`alpha[0][:,k] = psi_inverse(2., y_k)` broadcast over rows, and finally
`alpha[1] = alpha[0] / mean_i(a[0]/a[1])`.  `dg` is the external
`scipy.special.digamma` and `ψ` the external `utils.psi_inverse`, both
passed as parameters.  (The source writes through the numpy view
`alpha_1 = self.alpha[0,0,:]`, reading each entry before overwriting it,
which is equivalent to this pure form.) -/
noncomputable def VIState.update_alpha {N P K : ℕ} (dg : ℝ → ℝ)
    (ψ : ℝ → ℝ → ℝ) (hN : 0 < N) (s : VIState N P K) : VIState N P K :=
  { s with
    alpha := fun l i k =>
      if l = 0 then
        ψ 2 (Real.log (s.alpha 1 ⟨0, hN⟩ k) +
          (∑ i', (dg (s.a 0 i' k) - Real.log (s.a 1 i' k))) / N)
      else
        ψ 2 (Real.log (s.alpha 1 ⟨0, hN⟩ k) +
          (∑ i', (dg (s.a 0 i' k) - Real.log (s.a 1 i' k))) / N) /
          ((∑ i', s.a 0 i' k / s.a 1 i' k) / N) }

/-- Method `update_beta(self)` (lines 208-218): symmetric to
`update_alpha` over columns, with `beta`, `b` and mean over the `P`
rows of `b` (the row-0 read of `beta[1]` needs `P ≥ 1`). -/
noncomputable def VIState.update_beta {N P K : ℕ} (dg : ℝ → ℝ)
    (ψ : ℝ → ℝ → ℝ) (hP : 0 < P) (s : VIState N P K) : VIState N P K :=
  { s with
    beta := fun l j k =>
      if l = 0 then
        ψ 2 (Real.log (s.beta 1 ⟨0, hP⟩ k) +
          (∑ j', (dg (s.b 0 j' k) - Real.log (s.b 1 j' k))) / P)
      else
        ψ 2 (Real.log (s.beta 1 ⟨0, hP⟩ k) +
          (∑ j', (dg (s.b 0 j' k) - Real.log (s.b 1 j' k))) / P) /
          ((∑ j', s.b 0 j' k / s.b 1 j' k) / P) }

/-- Helper: `x / (x / m) = m` whenever `x ≠ 0` (with the `0/0 = 0`
convention the `m = 0` case also holds). -/
theorem div_div_self_eq {x m : ℝ} (hx : x ≠ 0) : x / (x / m) = m := by
  rcases eq_or_ne m 0 with h | h
  · simp [h]
  · rw [div_div_eq_mul_div, mul_comm, mul_div_assoc, div_self hx, mul_one]

/-- C7 (amended): under the spec's contract for the external inverse
digamma (`dg (ψ 2 y) = y`, `ψ 2 y > 0`), `update_alpha` sets the new
prior shape so that `digamma(shape) = log(old rate at row 0) +
mean(E[log U])` (a plus, not a minus, and with no `log(shape)` term on
the left), and sets the new rate so the prior mean `shape/rate` equals
the empirical mean of `a[0]/a[1]`; `update_beta` is symmetric. -/
theorem update_alpha_beta_inverse_digamma {N P K : ℕ} (dg : ℝ → ℝ)
    (ψ : ℝ → ℝ → ℝ) (hN : 0 < N) (hP : 0 < P) (s : VIState N P K)
    (hψ : ∀ y, dg (ψ 2 y) = y) (hψpos : ∀ y, 0 < ψ 2 y) :
    (∀ i k, dg ((s.update_alpha dg ψ hN).alpha 0 i k) =
        Real.log (s.alpha 1 ⟨0, hN⟩ k) +
          (∑ i', (dg (s.a 0 i' k) - Real.log (s.a 1 i' k))) / N) ∧
      (∀ i k, (s.update_alpha dg ψ hN).alpha 0 i k /
          (s.update_alpha dg ψ hN).alpha 1 i k =
        (∑ i', s.a 0 i' k / s.a 1 i' k) / N) ∧
      (∀ j k, dg ((s.update_beta dg ψ hP).beta 0 j k) =
        Real.log (s.beta 1 ⟨0, hP⟩ k) +
          (∑ j', (dg (s.b 0 j' k) - Real.log (s.b 1 j' k))) / P) ∧
      (∀ j k, (s.update_beta dg ψ hP).beta 0 j k /
          (s.update_beta dg ψ hP).beta 1 j k =
        (∑ j', s.b 0 j' k / s.b 1 j' k) / P) := by
  refine ⟨fun i k => ?_, fun i k => ?_, fun j k => ?_, fun j k => ?_⟩
  · have h0 : (s.update_alpha dg ψ hN).alpha 0 i k =
        ψ 2 (Real.log (s.alpha 1 ⟨0, hN⟩ k) +
          (∑ i', (dg (s.a 0 i' k) - Real.log (s.a 1 i' k))) / N) := rfl
    rw [h0, hψ]
  · have h0 : (s.update_alpha dg ψ hN).alpha 0 i k =
        ψ 2 (Real.log (s.alpha 1 ⟨0, hN⟩ k) +
          (∑ i', (dg (s.a 0 i' k) - Real.log (s.a 1 i' k))) / N) := rfl
    have h1 : (s.update_alpha dg ψ hN).alpha 1 i k =
        ψ 2 (Real.log (s.alpha 1 ⟨0, hN⟩ k) +
          (∑ i', (dg (s.a 0 i' k) - Real.log (s.a 1 i' k))) / N) /
          ((∑ i', s.a 0 i' k / s.a 1 i' k) / N) := rfl
    rw [h0, h1]
    exact div_div_self_eq (hψpos _).ne'
  · have h0 : (s.update_beta dg ψ hP).beta 0 j k =
        ψ 2 (Real.log (s.beta 1 ⟨0, hP⟩ k) +
          (∑ j', (dg (s.b 0 j' k) - Real.log (s.b 1 j' k))) / P) := rfl
    rw [h0, hψ]
  · have h0 : (s.update_beta dg ψ hP).beta 0 j k =
        ψ 2 (Real.log (s.beta 1 ⟨0, hP⟩ k) +
          (∑ j', (dg (s.b 0 j' k) - Real.log (s.b 1 j' k))) / P) := rfl
    have h1 : (s.update_beta dg ψ hP).beta 1 j k =
        ψ 2 (Real.log (s.beta 1 ⟨0, hP⟩ k) +
          (∑ j', (dg (s.b 0 j' k) - Real.log (s.b 1 j' k))) / P) /
          ((∑ j', s.b 0 j' k / s.b 1 j' k) / P) := rfl
    rw [h0, h1]
    exact div_div_self_eq (hψpos _).ne'

/-- Witness for the amended C7 at the concrete `1×1×1` state, with
digamma instantiated to `Real.log` and the inverse digamma to
`Real.exp`, which satisfy the contract exactly. -/
theorem update_alpha_beta_inverse_digamma_witness :
    (∀ i k, Real.log ((oneState.update_alpha Real.log
        (fun _ y => Real.exp y) one_pos).alpha 0 i k) =
        Real.log (oneState.alpha 1 ⟨0, one_pos⟩ k) +
          (∑ i', (Real.log (oneState.a 0 i' k) -
            Real.log (oneState.a 1 i' k))) / ((1 : ℕ) : ℝ)) ∧
      (∀ i k, (oneState.update_alpha Real.log
          (fun _ y => Real.exp y) one_pos).alpha 0 i k /
          (oneState.update_alpha Real.log
            (fun _ y => Real.exp y) one_pos).alpha 1 i k =
        (∑ i', oneState.a 0 i' k / oneState.a 1 i' k) / ((1 : ℕ) : ℝ)) ∧
      (∀ j k, Real.log ((oneState.update_beta Real.log
          (fun _ y => Real.exp y) one_pos).beta 0 j k) =
        Real.log (oneState.beta 1 ⟨0, one_pos⟩ k) +
          (∑ j', (Real.log (oneState.b 0 j' k) -
            Real.log (oneState.b 1 j' k))) / ((1 : ℕ) : ℝ)) ∧
      (∀ j k, (oneState.update_beta Real.log
          (fun _ y => Real.exp y) one_pos).beta 0 j k /
          (oneState.update_beta Real.log
            (fun _ y => Real.exp y) one_pos).beta 1 j k =
        (∑ j', oneState.b 0 j' k / oneState.b 1 j' k) / ((1 : ℕ) : ℝ)) :=
  update_alpha_beta_inverse_digamma Real.log (fun _ y => Real.exp y)
    one_pos one_pos oneState (fun y => Real.log_exp y)
    (fun y => Real.exp_pos y)

/-- Concrete `1×1×1` state used to refute the claimed C7 equation:
old prior rate `alpha[1] = 1`, posterior `a[0] = 2`, `a[1] = 1`. -/
noncomputable def cexAlphaState : VIState 1 1 1 where
  X := fun _ _ => 0
  alpha := fun _ _ _ => 1
  beta := fun _ _ _ => 1
  pi := fun _ _ => 1 / 2
  logit_pi := fun _ _ => Real.log ((1 / 2) / (1 - 1 / 2))
  a := fun l _ _ => if l = 0 then 2 else 1
  b := fun _ _ _ => 1
  r := fun _ _ _ => 1 / 2
  p := fun _ _ => 1 / 2

/-- Counterexample to C7 as stated: with digamma and inverse digamma
instantiated to the identity (which satisfies the spec contract
`digamma (psi_inverse 2 y) = y` everywhere, and positivity at the value
`y = 2` actually used), the new shape produced by `update_alpha` on
`cexAlphaState` does not satisfy the claimed equation
`log(shape) - digamma(shape) = log(rate) - mean(E[log U])`: the left
side is `log 2 - 2` while the right side is `-2`. -/
theorem update_alpha_claim_counterexample :
    (fun x : ℝ => x) ((fun _ y : ℝ => y) 2
        (Real.log (cexAlphaState.alpha 1 ⟨0, one_pos⟩ 0) +
          (∑ i', ((fun x : ℝ => x) (cexAlphaState.a 0 i' 0) -
            Real.log (cexAlphaState.a 1 i' 0))) / ((1 : ℕ) : ℝ))) =
      Real.log (cexAlphaState.alpha 1 ⟨0, one_pos⟩ 0) +
        (∑ i', ((fun x : ℝ => x) (cexAlphaState.a 0 i' 0) -
          Real.log (cexAlphaState.a 1 i' 0))) / ((1 : ℕ) : ℝ) ∧
    (0 : ℝ) < (fun _ y : ℝ => y) 2
        (Real.log (cexAlphaState.alpha 1 ⟨0, one_pos⟩ 0) +
          (∑ i', ((fun x : ℝ => x) (cexAlphaState.a 0 i' 0) -
            Real.log (cexAlphaState.a 1 i' 0))) / ((1 : ℕ) : ℝ)) ∧
    ¬ (Real.log ((cexAlphaState.update_alpha (fun x => x)
          (fun _ y => y) one_pos).alpha 0 0 0) -
        (fun x : ℝ => x) ((cexAlphaState.update_alpha (fun x => x)
          (fun _ y => y) one_pos).alpha 0 0 0) =
      Real.log (cexAlphaState.alpha 1 ⟨0, one_pos⟩ 0) -
        (∑ i', ((fun x : ℝ => x) (cexAlphaState.a 0 i' 0) -
          Real.log (cexAlphaState.a 1 i' 0))) / ((1 : ℕ) : ℝ)) := by
  have hsum : (∑ i' : Fin 1, ((fun x : ℝ => x) (cexAlphaState.a 0 i' 0) -
      Real.log (cexAlphaState.a 1 i' 0))) = 2 := by
    rw [Fin.sum_univ_one]
    have ha0 : cexAlphaState.a 0 0 0 = 2 := rfl
    have ha1 : cexAlphaState.a 1 0 0 = 1 := rfl
    rw [ha0, ha1, Real.log_one]
    norm_num
  have halpha1 : cexAlphaState.alpha 1 ⟨0, one_pos⟩ 0 = 1 := rfl
  have hval : (cexAlphaState.update_alpha (fun x => x)
      (fun _ y => y) one_pos).alpha 0 0 0 =
      Real.log (cexAlphaState.alpha 1 ⟨0, one_pos⟩ 0) +
        (∑ i', ((fun x : ℝ => x) (cexAlphaState.a 0 i' 0) -
          Real.log (cexAlphaState.a 1 i' 0))) / ((1 : ℕ) : ℝ) := rfl
  have hval2 : (cexAlphaState.update_alpha (fun x => x)
      (fun _ y => y) one_pos).alpha 0 0 0 = 2 := by
    rw [hval, hsum, halpha1, Real.log_one]
    norm_num
  refine ⟨rfl, ?_, ?_⟩
  · show (0 : ℝ) < Real.log (cexAlphaState.alpha 1 ⟨0, one_pos⟩ 0) +
        (∑ i', ((fun x : ℝ => x) (cexAlphaState.a 0 i' 0) -
          Real.log (cexAlphaState.a 1 i' 0))) / ((1 : ℕ) : ℝ)
    rw [hsum, halpha1, Real.log_one]
    norm_num
  · rw [hval2, hsum, halpha1, Real.log_one]
    intro h
    have hid : (fun x : ℝ => x) (2 : ℝ) = 2 := rfl
    rw [hid] at h
    norm_num at h

/-- Local variational parameters `(r, a, p)` maintained by
`predictive_ll` for the test rows. -/
abbrev LocalParams (M P K : ℕ) :=
  (Fin M → Fin P → Fin K → ℝ) × (Fin 2 → Fin M → Fin K → ℝ) ×
    (Fin M → Fin P → ℝ)

/-- Body of the `for i in range(n_iterations)` loop of `predictive_ll`
(lines 54-57), exactly as the source sequences it: `r` is updated from
the old `a, p`, then `a` from the old `p` and the new `r`, then `p` from
the new `a, r`; the global `b` (read inside `update_r`, `update_a`,
`update_p` through `s`) is never written. -/
noncomputable def VIState.predLoop {N P K M : ℕ} (dg : ℝ → ℝ)
    (s : VIState N P K) (hM : M ≤ N) (Xt : Fin M → Fin P → ℝ) :
    ℕ → LocalParams M P K → LocalParams M P K
  | 0, t => t
  | n + 1, t =>
      s.predLoop dg hM Xt n
        (let r' := s.update_r dg t.1 Xt t.2.1 t.2.2
         let a' := s.update_a hM t.2.1 Xt t.2.2 r'
         let p' := s.update_p hM t.2.2 Xt a' r'
         (r', a', p'))

/-- One local coordinate sweep (`update_r`, then `update_a`, then
`update_p`) as a single step function, for stating C9. -/
noncomputable def predStep {N P K M : ℕ} (dg : ℝ → ℝ) (s : VIState N P K)
    (hM : M ≤ N) (Xt : Fin M → Fin P → ℝ) :
    LocalParams M P K → LocalParams M P K :=
  fun t =>
    (s.update_r dg t.1 Xt t.2.1 t.2.2,
     s.update_a hM t.2.1 Xt t.2.2 (s.update_r dg t.1 Xt t.2.1 t.2.2),
     s.update_p hM t.2.2 Xt
       (s.update_a hM t.2.1 Xt t.2.2 (s.update_r dg t.1 Xt t.2.1 t.2.2))
       (s.update_r dg t.1 Xt t.2.1 t.2.2))

/-- Helper: the source loop is the `n`-fold iterate of one local sweep. -/
theorem predLoop_eq_iterate {N P K M : ℕ} (dg : ℝ → ℝ) (s : VIState N P K)
    (hM : M ≤ N) (Xt : Fin M → Fin P → ℝ) (n : ℕ) (t : LocalParams M P K) :
    s.predLoop dg hM Xt n t = (predStep dg s hM Xt)^[n] t := by
  induction n generalizing t with
  | zero => rfl
  | succ m ih =>
      show s.predLoop dg hM Xt m (predStep dg s hM Xt t) = _
      rw [Function.iterate_succ_apply]
      exact ih (predStep dg s hM Xt t)

/-- Method `predictive_ll(self, X_test, n_iterations, S)` (lines 41-70):
initializes local `a = ones + rand`, `r = 0.5`, `p = 0.5` for the test
row count (same scheme as the constructor), runs `n_iterations` local
sweeps, and returns `np.mean(log_likelihood(X_test, a[0]/a[1], b[0]/b[1],
p))`.  `llext` is the external `utils.log_likelihood`, modelled from the
spec (§6) as returning a per-row array, so `np.mean` is the mean over
the `M` test rows.  The Monte-Carlo sampling block of the source is
commented out there and therefore absent here. -/
noncomputable def VIState.predictive_ll {N P K M : ℕ} (dg : ℝ → ℝ)
    (llext : (Fin M → Fin P → ℝ) → (Fin M → Fin K → ℝ) →
      (Fin P → Fin K → ℝ) → (Fin M → Fin P → ℝ) → Fin M → ℝ)
    (s : VIState N P K) (hM : M ≤ N) (Xt : Fin M → Fin P → ℝ)
    (randA : Fin 2 → Fin M → Fin K → ℝ) (n_iterations : ℕ) : ℝ :=
  (∑ i, llext Xt
      (estimate_U (s.predLoop dg hM Xt n_iterations
        (fun _ _ _ => 0.5, fun l i' k => 1 + randA l i' k,
         fun _ _ => 0.5)).2.1)
      (estimate_V s.b)
      (s.predLoop dg hM Xt n_iterations
        (fun _ _ _ => 0.5, fun l i' k => 1 + randA l i' k,
         fun _ _ => 0.5)).2.2 i) / M

/-- C9: `predictive_ll` equals the mean over the `M` test rows of the
external log-likelihood evaluated at `U = a[0]/a[1]` from the locally
iterated parameters, `V = b[0]/b[1]` from the state's global `b`, and
the local dropout probability `p`, where the local parameters are the
`n`-fold local sweep (`update_r`, `update_a`, `update_p`) applied to the
fresh initialization `r = 0.5`, `a = 1 + rand`, `p = 0.5` (the training
initialization scheme); the global `b` is never updated. -/
theorem predictive_ll_spec {N P K M : ℕ} (dg : ℝ → ℝ)
    (llext : (Fin M → Fin P → ℝ) → (Fin M → Fin K → ℝ) →
      (Fin P → Fin K → ℝ) → (Fin M → Fin P → ℝ) → Fin M → ℝ)
    (s : VIState N P K) (hM : M ≤ N) (Xt : Fin M → Fin P → ℝ)
    (randA : Fin 2 → Fin M → Fin K → ℝ) (n : ℕ) :
    s.predictive_ll dg llext hM Xt randA n =
      (∑ i, llext Xt
        (estimate_U ((predStep dg s hM Xt)^[n]
          (fun _ _ _ => 0.5, fun l i' k => 1 + randA l i' k,
           fun _ _ => 0.5)).2.1)
        (estimate_V s.b)
        ((predStep dg s hM Xt)^[n]
          (fun _ _ _ => 0.5, fun l i' k => 1 + randA l i' k,
           fun _ _ => 0.5)).2.2 i) / M := by
  unfold VIState.predictive_ll
  rw [predLoop_eq_iterate]

/-- Witness for C9 at the concrete `1×1×1` state with zero sweeps and a
constant external log-likelihood. -/
theorem predictive_ll_spec_witness :
    oneState.predictive_ll (fun x => x) (fun _ _ _ _ _ => (3 : ℝ))
        (le_refl 1) oneState.X (fun _ _ _ => 0) 0 =
      (∑ i : Fin 1, (fun _ _ _ _ _ => (3 : ℝ)) oneState.X
        (estimate_U ((predStep (fun x => x) oneState (le_refl 1)
            oneState.X)^[0]
          (fun _ _ _ => 0.5, fun l i' k => 1 + (fun _ _ _ => (0 : ℝ)) l i' k,
           fun _ _ => 0.5)).2.1)
        (estimate_V oneState.b)
        ((predStep (fun x => x) oneState (le_refl 1) oneState.X)^[0]
          (fun _ _ _ => 0.5, fun l i' k => 1 + (fun _ _ _ => (0 : ℝ)) l i' k,
           fun _ _ => 0.5)).2.2 i) / ((1 : ℕ) : ℝ) :=
  predictive_ll_spec (fun x => x) (fun _ _ _ _ _ => (3 : ℝ)) oneState
    (le_refl 1) oneState.X (fun _ _ _ => 0) 0

/-- Call-level semantics of `predictive_ll`: the returned scalar paired
with the instance state after the call.  Every assignment in the source
body (lines 46-70) targets a local name (`N_test`, `a`, `r`, `p`,
`pred_ll`): `update_r` and `update_a` mutate the array passed as their
first data argument, which is always one of the local arrays, and
`update_p` rebinds `p` to a fresh array; the instance fields
`self.b`, `self.alpha`, `self.logit_pi` are only read.  The post-call
state is therefore rebuilt field by field from the unchanged fields. -/
noncomputable def VIState.predictive_ll_call {N P K M : ℕ} (dg : ℝ → ℝ)
    (llext : (Fin M → Fin P → ℝ) → (Fin M → Fin K → ℝ) →
      (Fin P → Fin K → ℝ) → (Fin M → Fin P → ℝ) → Fin M → ℝ)
    (s : VIState N P K) (hM : M ≤ N) (Xt : Fin M → Fin P → ℝ)
    (randA : Fin 2 → Fin M → Fin K → ℝ) (n_iterations : ℕ) :
    ℝ × VIState N P K :=
  (s.predictive_ll dg llext hM Xt randA n_iterations,
   { X := s.X, alpha := s.alpha, beta := s.beta, pi := s.pi,
     logit_pi := s.logit_pi, a := s.a, b := s.b, r := s.r, p := s.p })

/-- C10: calling `predictive_ll` leaves every field of the inference
object unchanged — the post-call state equals the pre-call state, field
by field and as a whole — and the returned value is the predictive
log-likelihood. -/
theorem predictive_ll_frame {N P K M : ℕ} (dg : ℝ → ℝ)
    (llext : (Fin M → Fin P → ℝ) → (Fin M → Fin K → ℝ) →
      (Fin P → Fin K → ℝ) → (Fin M → Fin P → ℝ) → Fin M → ℝ)
    (s : VIState N P K) (hM : M ≤ N) (Xt : Fin M → Fin P → ℝ)
    (randA : Fin 2 → Fin M → Fin K → ℝ) (n : ℕ) :
    (s.predictive_ll_call dg llext hM Xt randA n).2 = s ∧
      (s.predictive_ll_call dg llext hM Xt randA n).2.X = s.X ∧
      (s.predictive_ll_call dg llext hM Xt randA n).2.alpha = s.alpha ∧
      (s.predictive_ll_call dg llext hM Xt randA n).2.beta = s.beta ∧
      (s.predictive_ll_call dg llext hM Xt randA n).2.pi = s.pi ∧
      (s.predictive_ll_call dg llext hM Xt randA n).2.logit_pi =
        s.logit_pi ∧
      (s.predictive_ll_call dg llext hM Xt randA n).2.a = s.a ∧
      (s.predictive_ll_call dg llext hM Xt randA n).2.b = s.b ∧
      (s.predictive_ll_call dg llext hM Xt randA n).2.r = s.r ∧
      (s.predictive_ll_call dg llext hM Xt randA n).2.p = s.p ∧
      (s.predictive_ll_call dg llext hM Xt randA n).1 =
        s.predictive_ll dg llext hM Xt randA n := by
  cases s
  exact ⟨rfl, rfl, rfl, rfl, rfl, rfl, rfl, rfl, rfl, rfl, rfl⟩

/-- Witness for C10 at the concrete `1×1×1` state. -/
theorem predictive_ll_frame_witness :
    (oneState.predictive_ll_call (fun x => x) (fun _ _ _ _ _ => (3 : ℝ))
        (le_refl 1) oneState.X (fun _ _ _ => 0) 10).2 = oneState ∧
      (oneState.predictive_ll_call (fun x => x) (fun _ _ _ _ _ => (3 : ℝ))
        (le_refl 1) oneState.X (fun _ _ _ => 0) 10).2.b = oneState.b ∧
      (oneState.predictive_ll_call (fun x => x) (fun _ _ _ _ _ => (3 : ℝ))
        (le_refl 1) oneState.X (fun _ _ _ => 0) 10).1 =
        oneState.predictive_ll (fun x => x) (fun _ _ _ _ _ => (3 : ℝ))
          (le_refl 1) oneState.X (fun _ _ _ => 0) 10 := by
  have h := predictive_ll_frame (fun x => x) (fun _ _ _ _ _ => (3 : ℝ))
    oneState (le_refl 1) oneState.X (fun _ _ _ => 0) 10
  exact ⟨h.1, h.2.2.2.2.2.2.2.1, h.2.2.2.2.2.2.2.2.2.2⟩

/-- Counterexample to C8: the constructor (lines 17-33) contains no
validation of any kind — no assert, no raise — so construction always
succeeds (`initVI` is a total function into `VIState`), and a prior
array containing the strictly negative entry `-1` is silently accepted
and stored verbatim in the constructed state. -/
theorem init_accepts_nonpositive_prior :
    (initVI (N := 1) (P := 1) (K := 1) (fun _ _ => 0) (fun _ _ => -1)
        (fun _ _ _ => 1) (fun _ => 1 / 2) (fun _ _ _ => 0)
        (fun _ _ _ => 0)).alpha 0 0 0 = -1 ∧
      ((-1 : ℝ) ≤ 0) := by
  exact ⟨rfl, by norm_num⟩

/-- C8 (amended): construction never fails and performs no validation:
even when the supplied prior `alpha` has a non-positive entry, the
constructor silently stores it (broadcast over rows), so the constructed
state carries a non-positive prior entry. -/
theorem init_stores_unvalidated {N P K : ℕ} (X : Fin N → Fin P → ℝ)
    (alpha : Fin 2 → Fin K → ℝ) (beta : Fin 2 → Fin P → Fin K → ℝ)
    (pi : Fin P → ℝ) (randA : Fin 2 → Fin N → Fin K → ℝ)
    (randB : Fin 2 → Fin P → Fin K → ℝ) (l : Fin 2) (k : Fin K)
    (hbad : alpha l k ≤ 0) :
    (∀ i, (initVI X alpha beta pi randA randB).alpha l i k = alpha l k) ∧
      (∀ i, (initVI X alpha beta pi randA randB).alpha l i k ≤ 0) ∧
      (initVI X alpha beta pi randA randB).beta = beta ∧
      (initVI X alpha beta pi randA randB).X = X :=
  ⟨fun _ => rfl, fun _ => hbad, rfl, rfl⟩

/-- Witness for the amended C8 at a concrete malformed prior. -/
theorem init_stores_unvalidated_witness :
    (∀ i, (initVI (N := 1) (P := 1) (K := 1) (fun _ _ => 0)
        (fun _ _ => -1) (fun _ _ _ => 1) (fun _ => 1 / 2) (fun _ _ _ => 0)
        (fun _ _ _ => 0)).alpha 0 i 0 = (fun _ _ => (-1 : ℝ)) 0 0) ∧
      (∀ i, (initVI (N := 1) (P := 1) (K := 1) (fun _ _ => 0)
        (fun _ _ => -1) (fun _ _ _ => 1) (fun _ => 1 / 2) (fun _ _ _ => 0)
        (fun _ _ _ => 0)).alpha 0 i 0 ≤ 0) ∧
      (initVI (N := 1) (P := 1) (K := 1) (fun _ _ => 0) (fun _ _ => -1)
        (fun _ _ _ => 1) (fun _ => 1 / 2) (fun _ _ _ => 0)
        (fun _ _ _ => 0)).beta = (fun _ _ _ => (1 : ℝ)) ∧
      (initVI (N := 1) (P := 1) (K := 1) (fun _ _ => 0) (fun _ _ => -1)
        (fun _ _ _ => 1) (fun _ => 1 / 2) (fun _ _ _ => 0)
        (fun _ _ _ => 0)).X = (fun _ _ => (0 : ℝ)) :=
  init_stores_unvalidated (fun _ _ => 0) (fun _ _ => -1) (fun _ _ _ => 1)
    (fun _ => 1 / 2) (fun _ _ _ => 0) (fun _ _ _ => 0) 0 0 (by norm_num)

/-- One iteration body of `run_cavi` (lines 233-246): the coordinate
sweep `self.a = update_a(...)`, `self.p = update_p(...)`,
`self.r = update_r(...)`, then `update_b()` (writing `self.b`), then,
when `empirical_bayes` is set, `update_pi()`, `update_alpha()`,
`update_beta()`.  Each later update reads the values written by the
earlier ones, as in the source. -/
noncomputable def VIState.sweep {N P K : ℕ} (dg : ℝ → ℝ) (ψ : ℝ → ℝ → ℝ)
    (hN : 0 < N) (hP : 0 < P) (eb : Bool) (s : VIState N P K) :
    VIState N P K :=
  let a' := s.update_a (le_refl N) s.a s.X s.p s.r
  let p' := s.update_p (le_refl N) s.p s.X a' s.r
  let r' := s.update_r dg s.r s.X a' p'
  let s3 : VIState N P K := { s with a := a', p := p', r := r' }
  let s4 : VIState N P K := { s3 with b := s3.update_b }
  if eb then ((s4.update_pi).update_alpha dg ψ hN).update_beta dg ψ hP
  else s4

/-- Result of one `run_cavi` call.  `traces` is the Python return value
(`(ll_it, ll_time)` when `return_ll`, `None` otherwise).  `itCount` and
`sampleTimes` are observability fields of the embedding: the number of
iterations actually executed, and the wall-clock readings (`end`) at
which a value was appended to the time-sampled trace. -/
structure RunResult (N P K : ℕ) where
  itCount : ℕ
  state : VIState N P K
  traces : Option (List ℝ × List ℝ)
  sampleTimes : List ℝ

/-- Loop of `run_cavi` (lines 230-275), by recursion on the remaining
iteration budget.  `clock it` is the value returned by the `time.time()`
call made at iteration `it` (the source calls it once per iteration,
after the log-likelihood evaluation), `tInit` the value of the initial
`start = init = time.time()`.  `llOf it s` stands for the per-iteration
log-likelihood evaluation (lines 250-258) — `predictive_ll(X_test)` when
held-out data is supplied, else the external `log_likelihood` on a random
row subsample — whose value is appended to the traces but never branches,
so it is passed as an oracle on the current state.  Control flow follows
the source exactly: the sampling-trace append and `start = end` happen
when `end - start ≥ sampling_rate - 0.1*sampling_rate`, the per-iteration
append always happens, and the loop breaks when `end - init ≥ max_time`
— all of this only inside `if return_ll`; with `return_ll` unset the
loop body has no time check at all. -/
noncomputable def runCaviAux {N P K : ℕ} (dg : ℝ → ℝ) (ψ : ℝ → ℝ → ℝ)
    (hN : 0 < N) (hP : 0 < P) (llOf : ℕ → VIState N P K → ℝ)
    (clock : ℕ → ℝ) (tInit samplingRate maxTime : ℝ) (eb returnLL : Bool) :
    ℕ → ℕ → VIState N P K → ℝ → List ℝ → List ℝ → List ℝ →
      RunResult N P K
  | 0, it, s, _, llIt, llTime, stamps =>
      ⟨it, s, if returnLL then some (llIt, llTime) else none, stamps⟩
  | fuel + 1, it, s, start, llIt, llTime, stamps =>
      if returnLL then
        if samplingRate - 0.1 * samplingRate ≤ clock it - start then
          if maxTime ≤ clock it - tInit then
            ⟨it + 1, s.sweep dg ψ hN hP eb,
             some (llIt ++ [llOf it (s.sweep dg ψ hN hP eb)],
                   llTime ++ [llOf it (s.sweep dg ψ hN hP eb)]),
             stamps ++ [clock it]⟩
          else
            runCaviAux dg ψ hN hP llOf clock tInit samplingRate maxTime
              eb returnLL fuel (it + 1) (s.sweep dg ψ hN hP eb) (clock it)
              (llIt ++ [llOf it (s.sweep dg ψ hN hP eb)])
              (llTime ++ [llOf it (s.sweep dg ψ hN hP eb)])
              (stamps ++ [clock it])
        else
          if maxTime ≤ clock it - tInit then
            ⟨it + 1, s.sweep dg ψ hN hP eb,
             some (llIt ++ [llOf it (s.sweep dg ψ hN hP eb)], llTime),
             stamps⟩
          else
            runCaviAux dg ψ hN hP llOf clock tInit samplingRate maxTime
              eb returnLL fuel (it + 1) (s.sweep dg ψ hN hP eb) start
              (llIt ++ [llOf it (s.sweep dg ψ hN hP eb)]) llTime stamps
      else
        runCaviAux dg ψ hN hP llOf clock tInit samplingRate maxTime
          eb returnLL fuel (it + 1) (s.sweep dg ψ hN hP eb) start
          llIt llTime stamps

/-- Method `run_cavi(self, X_test, empirical_bayes, n_iterations,
return_ll, sampling_rate, max_time, verbose)` (lines 220-275): runs the
loop from iteration 0 with `start = init = tInit` and empty traces. -/
noncomputable def VIState.run_cavi {N P K : ℕ} (dg : ℝ → ℝ)
    (ψ : ℝ → ℝ → ℝ) (hN : 0 < N) (hP : 0 < P)
    (llOf : ℕ → VIState N P K → ℝ) (clock : ℕ → ℝ) (tInit : ℝ)
    (eb returnLL : Bool) (n_iterations : ℕ) (samplingRate maxTime : ℝ)
    (s : VIState N P K) : RunResult N P K :=
  runCaviAux dg ψ hN hP llOf clock tInit samplingRate maxTime eb returnLL
    n_iterations 0 s tInit [] [] []

/-- Helper: with `return_ll` unset the loop body just recurses
(no time check, no trace activity). -/
theorem runCaviAux_false_step {N P K : ℕ} (dg : ℝ → ℝ) (ψ : ℝ → ℝ → ℝ)
    (hN : 0 < N) (hP : 0 < P) (llOf : ℕ → VIState N P K → ℝ)
    (clock : ℕ → ℝ) (tInit samplingRate maxTime : ℝ) (eb : Bool)
    (fuel it : ℕ) (s : VIState N P K) (start : ℝ)
    (llIt llTime stamps : List ℝ) :
    runCaviAux dg ψ hN hP llOf clock tInit samplingRate maxTime eb false
        (fuel + 1) it s start llIt llTime stamps =
      runCaviAux dg ψ hN hP llOf clock tInit samplingRate maxTime eb false
        fuel (it + 1) (s.sweep dg ψ hN hP eb) start llIt llTime stamps :=
  rfl

/-- Helper: step equation, sampling append taken and budget reached. -/
theorem runCaviAux_true_break_sample {N P K : ℕ} (dg : ℝ → ℝ)
    (ψ : ℝ → ℝ → ℝ) (hN : 0 < N) (hP : 0 < P)
    (llOf : ℕ → VIState N P K → ℝ) (clock : ℕ → ℝ)
    (tInit samplingRate maxTime : ℝ) (eb : Bool) (fuel it : ℕ)
    (s : VIState N P K) (start : ℝ) (llIt llTime stamps : List ℝ)
    (h1 : samplingRate - 0.1 * samplingRate ≤ clock it - start)
    (h2 : maxTime ≤ clock it - tInit) :
    runCaviAux dg ψ hN hP llOf clock tInit samplingRate maxTime eb true
        (fuel + 1) it s start llIt llTime stamps =
      ⟨it + 1, s.sweep dg ψ hN hP eb,
       some (llIt ++ [llOf it (s.sweep dg ψ hN hP eb)],
             llTime ++ [llOf it (s.sweep dg ψ hN hP eb)]),
       stamps ++ [clock it]⟩ := by
  rw [runCaviAux.eq_2, if_pos rfl, if_pos h1, if_pos h2]

/-- Helper: step equation, sampling append taken and budget not reached. -/
theorem runCaviAux_true_cont_sample {N P K : ℕ} (dg : ℝ → ℝ)
    (ψ : ℝ → ℝ → ℝ) (hN : 0 < N) (hP : 0 < P)
    (llOf : ℕ → VIState N P K → ℝ) (clock : ℕ → ℝ)
    (tInit samplingRate maxTime : ℝ) (eb : Bool) (fuel it : ℕ)
    (s : VIState N P K) (start : ℝ) (llIt llTime stamps : List ℝ)
    (h1 : samplingRate - 0.1 * samplingRate ≤ clock it - start)
    (h2 : ¬ maxTime ≤ clock it - tInit) :
    runCaviAux dg ψ hN hP llOf clock tInit samplingRate maxTime eb true
        (fuel + 1) it s start llIt llTime stamps =
      runCaviAux dg ψ hN hP llOf clock tInit samplingRate maxTime eb true
        fuel (it + 1) (s.sweep dg ψ hN hP eb) (clock it)
        (llIt ++ [llOf it (s.sweep dg ψ hN hP eb)])
        (llTime ++ [llOf it (s.sweep dg ψ hN hP eb)])
        (stamps ++ [clock it]) := by
  rw [runCaviAux.eq_2, if_pos rfl, if_pos h1, if_neg h2]

/-- Helper: step equation, no sampling append and budget reached. -/
theorem runCaviAux_true_break_nosample {N P K : ℕ} (dg : ℝ → ℝ)
    (ψ : ℝ → ℝ → ℝ) (hN : 0 < N) (hP : 0 < P)
    (llOf : ℕ → VIState N P K → ℝ) (clock : ℕ → ℝ)
    (tInit samplingRate maxTime : ℝ) (eb : Bool) (fuel it : ℕ)
    (s : VIState N P K) (start : ℝ) (llIt llTime stamps : List ℝ)
    (h1 : ¬ samplingRate - 0.1 * samplingRate ≤ clock it - start)
    (h2 : maxTime ≤ clock it - tInit) :
    runCaviAux dg ψ hN hP llOf clock tInit samplingRate maxTime eb true
        (fuel + 1) it s start llIt llTime stamps =
      ⟨it + 1, s.sweep dg ψ hN hP eb,
       some (llIt ++ [llOf it (s.sweep dg ψ hN hP eb)], llTime),
       stamps⟩ := by
  rw [runCaviAux.eq_2, if_pos rfl, if_neg h1, if_pos h2]

/-- Helper: step equation, no sampling append and budget not reached. -/
theorem runCaviAux_true_cont_nosample {N P K : ℕ} (dg : ℝ → ℝ)
    (ψ : ℝ → ℝ → ℝ) (hN : 0 < N) (hP : 0 < P)
    (llOf : ℕ → VIState N P K → ℝ) (clock : ℕ → ℝ)
    (tInit samplingRate maxTime : ℝ) (eb : Bool) (fuel it : ℕ)
    (s : VIState N P K) (start : ℝ) (llIt llTime stamps : List ℝ)
    (h1 : ¬ samplingRate - 0.1 * samplingRate ≤ clock it - start)
    (h2 : ¬ maxTime ≤ clock it - tInit) :
    runCaviAux dg ψ hN hP llOf clock tInit samplingRate maxTime eb true
        (fuel + 1) it s start llIt llTime stamps =
      runCaviAux dg ψ hN hP llOf clock tInit samplingRate maxTime eb true
        fuel (it + 1) (s.sweep dg ψ hN hP eb) start
        (llIt ++ [llOf it (s.sweep dg ψ hN hP eb)]) llTime stamps := by
  rw [runCaviAux.eq_2, if_pos rfl, if_neg h1, if_neg h2]

/-- Helper: with `return_ll` unset the loop executes all `fuel`
remaining iterations and returns no traces. -/
theorem runCaviAux_false_spec {N P K : ℕ} (dg : ℝ → ℝ) (ψ : ℝ → ℝ → ℝ)
    (hN : 0 < N) (hP : 0 < P) (llOf : ℕ → VIState N P K → ℝ)
    (clock : ℕ → ℝ) (tInit samplingRate maxTime : ℝ) (eb : Bool)
    (fuel : ℕ) :
    ∀ (it : ℕ) (s : VIState N P K) (start : ℝ)
      (llIt llTime stamps : List ℝ),
      (runCaviAux dg ψ hN hP llOf clock tInit samplingRate maxTime eb
          false fuel it s start llIt llTime stamps).itCount = it + fuel ∧
        (runCaviAux dg ψ hN hP llOf clock tInit samplingRate maxTime eb
          false fuel it s start llIt llTime stamps).traces = none := by
  induction fuel with
  | zero => intro it s start llIt llTime stamps; exact ⟨rfl, rfl⟩
  | succ fuel ih =>
      intro it s start llIt llTime stamps
      rw [runCaviAux_false_step]
      obtain ⟨h1, h2⟩ := ih (it + 1) (s.sweep dg ψ hN hP eb) start
        llIt llTime stamps
      refine ⟨?_, h2⟩
      rw [h1]; omega

/-- Helper: with `return_ll` set the loop always returns both traces;
the per-iteration trace grows by one per executed iteration and the
time-sampled trace grows by one per recorded sample time. -/
theorem runCaviAux_true_traces {N P K : ℕ} (dg : ℝ → ℝ) (ψ : ℝ → ℝ → ℝ)
    (hN : 0 < N) (hP : 0 < P) (llOf : ℕ → VIState N P K → ℝ)
    (clock : ℕ → ℝ) (tInit samplingRate maxTime : ℝ) (eb : Bool)
    (fuel : ℕ) :
    ∀ (it : ℕ) (s : VIState N P K) (start : ℝ)
      (llIt llTime stamps : List ℝ),
      ∃ l1 l2,
        (runCaviAux dg ψ hN hP llOf clock tInit samplingRate maxTime eb
            true fuel it s start llIt llTime stamps).traces =
          some (l1, l2) ∧
        l1.length + it = llIt.length +
          (runCaviAux dg ψ hN hP llOf clock tInit samplingRate maxTime eb
            true fuel it s start llIt llTime stamps).itCount ∧
        l2.length + stamps.length = llTime.length +
          (runCaviAux dg ψ hN hP llOf clock tInit samplingRate maxTime eb
            true fuel it s start llIt llTime stamps).sampleTimes.length := by
  induction fuel with
  | zero =>
      intro it s start llIt llTime stamps
      exact ⟨llIt, llTime, rfl, rfl, rfl⟩
  | succ fuel ih =>
      intro it s start llIt llTime stamps
      by_cases h1 : samplingRate - 0.1 * samplingRate ≤ clock it - start
      · by_cases h2 : maxTime ≤ clock it - tInit
        · rw [runCaviAux_true_break_sample dg ψ hN hP llOf clock tInit
            samplingRate maxTime eb fuel it s start llIt llTime stamps h1 h2]
          refine ⟨llIt ++ [llOf it (s.sweep dg ψ hN hP eb)],
            llTime ++ [llOf it (s.sweep dg ψ hN hP eb)], rfl, ?_, ?_⟩
          · show (llIt ++ [llOf it (s.sweep dg ψ hN hP eb)]).length + it =
              llIt.length + (it + 1)
            simp only [List.length_append, List.length_singleton]; omega
          · show (llTime ++ [llOf it (s.sweep dg ψ hN hP eb)]).length +
                stamps.length =
              llTime.length + (stamps ++ [clock it]).length
            simp only [List.length_append, List.length_singleton]; omega
        · rw [runCaviAux_true_cont_sample dg ψ hN hP llOf clock tInit
            samplingRate maxTime eb fuel it s start llIt llTime stamps h1 h2]
          obtain ⟨l1, l2, ha, hb, hc⟩ := ih (it + 1) (s.sweep dg ψ hN hP eb)
            (clock it) (llIt ++ [llOf it (s.sweep dg ψ hN hP eb)])
            (llTime ++ [llOf it (s.sweep dg ψ hN hP eb)])
            (stamps ++ [clock it])
          refine ⟨l1, l2, ha, ?_, ?_⟩
          · simp only [List.length_append, List.length_singleton] at hb
            omega
          · simp only [List.length_append, List.length_singleton] at hc
            omega
      · by_cases h2 : maxTime ≤ clock it - tInit
        · rw [runCaviAux_true_break_nosample dg ψ hN hP llOf clock tInit
            samplingRate maxTime eb fuel it s start llIt llTime stamps h1 h2]
          refine ⟨llIt ++ [llOf it (s.sweep dg ψ hN hP eb)], llTime,
            rfl, ?_, rfl⟩
          show (llIt ++ [llOf it (s.sweep dg ψ hN hP eb)]).length + it =
            llIt.length + (it + 1)
          simp only [List.length_append, List.length_singleton]; omega
        · rw [runCaviAux_true_cont_nosample dg ψ hN hP llOf clock tInit
            samplingRate maxTime eb fuel it s start llIt llTime stamps h1 h2]
          obtain ⟨l1, l2, ha, hb, hc⟩ := ih (it + 1) (s.sweep dg ψ hN hP eb)
            start (llIt ++ [llOf it (s.sweep dg ψ hN hP eb)]) llTime stamps
          refine ⟨l1, l2, ha, ?_, hc⟩
          simp only [List.length_append, List.length_singleton] at hb
          omega

/-- Helper: the executed iteration count lies between the start index
and the iteration budget. -/
theorem runCaviAux_true_bounds {N P K : ℕ} (dg : ℝ → ℝ) (ψ : ℝ → ℝ → ℝ)
    (hN : 0 < N) (hP : 0 < P) (llOf : ℕ → VIState N P K → ℝ)
    (clock : ℕ → ℝ) (tInit samplingRate maxTime : ℝ) (eb : Bool)
    (fuel : ℕ) :
    ∀ (it : ℕ) (s : VIState N P K) (start : ℝ)
      (llIt llTime stamps : List ℝ),
      it ≤ (runCaviAux dg ψ hN hP llOf clock tInit samplingRate maxTime eb
          true fuel it s start llIt llTime stamps).itCount ∧
        (runCaviAux dg ψ hN hP llOf clock tInit samplingRate maxTime eb
          true fuel it s start llIt llTime stamps).itCount ≤ it + fuel := by
  induction fuel with
  | zero => intro it s start llIt llTime stamps; exact ⟨le_refl it, le_refl it⟩
  | succ fuel ih =>
      intro it s start llIt llTime stamps
      by_cases h1 : samplingRate - 0.1 * samplingRate ≤ clock it - start
      · by_cases h2 : maxTime ≤ clock it - tInit
        · rw [runCaviAux_true_break_sample dg ψ hN hP llOf clock tInit
            samplingRate maxTime eb fuel it s start llIt llTime stamps h1 h2]
          exact ⟨Nat.le_succ it, by show it + 1 ≤ it + (fuel + 1); omega⟩
        · rw [runCaviAux_true_cont_sample dg ψ hN hP llOf clock tInit
            samplingRate maxTime eb fuel it s start llIt llTime stamps h1 h2]
          obtain ⟨ha, hb⟩ := ih (it + 1) (s.sweep dg ψ hN hP eb) (clock it)
            (llIt ++ [llOf it (s.sweep dg ψ hN hP eb)])
            (llTime ++ [llOf it (s.sweep dg ψ hN hP eb)])
            (stamps ++ [clock it])
          exact ⟨by omega, by omega⟩
      · by_cases h2 : maxTime ≤ clock it - tInit
        · rw [runCaviAux_true_break_nosample dg ψ hN hP llOf clock tInit
            samplingRate maxTime eb fuel it s start llIt llTime stamps h1 h2]
          exact ⟨Nat.le_succ it, by show it + 1 ≤ it + (fuel + 1); omega⟩
        · rw [runCaviAux_true_cont_nosample dg ψ hN hP llOf clock tInit
            samplingRate maxTime eb fuel it s start llIt llTime stamps h1 h2]
          obtain ⟨ha, hb⟩ := ih (it + 1) (s.sweep dg ψ hN hP eb) start
            (llIt ++ [llOf it (s.sweep dg ψ hN hP eb)]) llTime stamps
          exact ⟨by omega, by omega⟩

/-- Helper: with `return_ll` set, iteration `k+1` is only begun (that
is, `k+2` iterations only execute) if the wall-clock reading at the end
of iteration `k` had not yet reached the budget. -/
theorem runCaviAux_true_no_overrun {N P K : ℕ} (dg : ℝ → ℝ)
    (ψ : ℝ → ℝ → ℝ) (hN : 0 < N) (hP : 0 < P)
    (llOf : ℕ → VIState N P K → ℝ) (clock : ℕ → ℝ)
    (tInit samplingRate maxTime : ℝ) (eb : Bool) (fuel : ℕ) :
    ∀ (it : ℕ) (s : VIState N P K) (start : ℝ)
      (llIt llTime stamps : List ℝ) (k : ℕ), it ≤ k →
      k + 2 ≤ (runCaviAux dg ψ hN hP llOf clock tInit samplingRate maxTime
          eb true fuel it s start llIt llTime stamps).itCount →
      clock k - tInit < maxTime := by
  induction fuel with
  | zero =>
      intro it s start llIt llTime stamps k hik hcnt
      have hcnt2 : k + 2 ≤ it := hcnt
      exact absurd hcnt2 (by omega)
  | succ fuel ih =>
      intro it s start llIt llTime stamps k hik hcnt
      by_cases h1 : samplingRate - 0.1 * samplingRate ≤ clock it - start
      · by_cases h2 : maxTime ≤ clock it - tInit
        · rw [runCaviAux_true_break_sample dg ψ hN hP llOf clock tInit
            samplingRate maxTime eb fuel it s start llIt llTime stamps
            h1 h2] at hcnt
          have hcnt2 : k + 2 ≤ it + 1 := hcnt
          exact absurd hcnt2 (by omega)
        · rw [runCaviAux_true_cont_sample dg ψ hN hP llOf clock tInit
            samplingRate maxTime eb fuel it s start llIt llTime stamps
            h1 h2] at hcnt
          rcases Nat.eq_or_lt_of_le hik with heq | hlt
          · subst heq; exact lt_of_not_le h2
          · exact ih (it + 1) (s.sweep dg ψ hN hP eb) (clock it)
              (llIt ++ [llOf it (s.sweep dg ψ hN hP eb)])
              (llTime ++ [llOf it (s.sweep dg ψ hN hP eb)])
              (stamps ++ [clock it]) k hlt hcnt
      · by_cases h2 : maxTime ≤ clock it - tInit
        · rw [runCaviAux_true_break_nosample dg ψ hN hP llOf clock tInit
            samplingRate maxTime eb fuel it s start llIt llTime stamps
            h1 h2] at hcnt
          have hcnt2 : k + 2 ≤ it + 1 := hcnt
          exact absurd hcnt2 (by omega)
        · rw [runCaviAux_true_cont_nosample dg ψ hN hP llOf clock tInit
            samplingRate maxTime eb fuel it s start llIt llTime stamps
            h1 h2] at hcnt
          rcases Nat.eq_or_lt_of_le hik with heq | hlt
          · subst heq; exact lt_of_not_le h2
          · exact ih (it + 1) (s.sweep dg ψ hN hP eb) start
              (llIt ++ [llOf it (s.sweep dg ψ hN hP eb)]) llTime stamps
              k hlt hcnt

/-- Helper: with `return_ll` set, if the loop stopped before exhausting
its iteration budget then it stopped because the wall-clock reading at
the end of its last executed iteration reached the budget. -/
theorem runCaviAux_true_stop_reason {N P K : ℕ} (dg : ℝ → ℝ)
    (ψ : ℝ → ℝ → ℝ) (hN : 0 < N) (hP : 0 < P)
    (llOf : ℕ → VIState N P K → ℝ) (clock : ℕ → ℝ)
    (tInit samplingRate maxTime : ℝ) (eb : Bool) (fuel : ℕ) :
    ∀ (it : ℕ) (s : VIState N P K) (start : ℝ)
      (llIt llTime stamps : List ℝ),
      (runCaviAux dg ψ hN hP llOf clock tInit samplingRate maxTime eb
          true fuel it s start llIt llTime stamps).itCount < it + fuel →
      0 < (runCaviAux dg ψ hN hP llOf clock tInit samplingRate maxTime eb
          true fuel it s start llIt llTime stamps).itCount ∧
        maxTime ≤ clock ((runCaviAux dg ψ hN hP llOf clock tInit
          samplingRate maxTime eb true fuel it s start llIt llTime
          stamps).itCount - 1) - tInit := by
  induction fuel with
  | zero =>
      intro it s start llIt llTime stamps hlt
      have hlt2 : it < it + 0 := hlt
      exact absurd hlt2 (by omega)
  | succ fuel ih =>
      intro it s start llIt llTime stamps hlt
      by_cases h1 : samplingRate - 0.1 * samplingRate ≤ clock it - start
      · by_cases h2 : maxTime ≤ clock it - tInit
        · rw [runCaviAux_true_break_sample dg ψ hN hP llOf clock tInit
            samplingRate maxTime eb fuel it s start llIt llTime stamps h1 h2]
          refine ⟨by show 0 < it + 1; omega, ?_⟩
          show maxTime ≤ clock (it + 1 - 1) - tInit
          simpa using h2
        · rw [runCaviAux_true_cont_sample dg ψ hN hP llOf clock tInit
            samplingRate maxTime eb fuel it s start llIt llTime stamps h1 h2]
          rw [runCaviAux_true_cont_sample dg ψ hN hP llOf clock tInit
            samplingRate maxTime eb fuel it s start llIt llTime stamps
            h1 h2] at hlt
          exact ih (it + 1) (s.sweep dg ψ hN hP eb) (clock it)
            (llIt ++ [llOf it (s.sweep dg ψ hN hP eb)])
            (llTime ++ [llOf it (s.sweep dg ψ hN hP eb)])
            (stamps ++ [clock it]) (by omega)
      · by_cases h2 : maxTime ≤ clock it - tInit
        · rw [runCaviAux_true_break_nosample dg ψ hN hP llOf clock tInit
            samplingRate maxTime eb fuel it s start llIt llTime stamps h1 h2]
          refine ⟨by show 0 < it + 1; omega, ?_⟩
          show maxTime ≤ clock (it + 1 - 1) - tInit
          simpa using h2
        · rw [runCaviAux_true_cont_nosample dg ψ hN hP llOf clock tInit
            samplingRate maxTime eb fuel it s start llIt llTime stamps h1 h2]
          rw [runCaviAux_true_cont_nosample dg ψ hN hP llOf clock tInit
            samplingRate maxTime eb fuel it s start llIt llTime stamps
            h1 h2] at hlt
          exact ih (it + 1) (s.sweep dg ψ hN hP eb) start
            (llIt ++ [llOf it (s.sweep dg ψ hN hP eb)]) llTime stamps
            (by omega)

/-- Helper: appending one element to a chain, linked from the current
last element (or the head default when the list is empty). -/
theorem chain_concat (R : ℝ → ℝ → Prop) (l : List ℝ) :
    ∀ (t u : ℝ), List.Chain R t l → R (l.getLastD t) u →
      List.Chain R t (l ++ [u]) := by
  induction l with
  | nil =>
      intro t u _ hr
      exact List.Chain.cons hr List.Chain.nil
  | cons a l ih =>
      intro t u hch hr
      rw [List.chain_cons] at hch
      rw [List.cons_append, List.chain_cons]
      refine ⟨hch.1, ih a u hch.2 ?_⟩
      rw [List.getLastD_cons] at hr
      exact hr

/-- Helper: the recorded sample times form a chain from the loop start
in which consecutive entries differ by at least
`sampling_rate - 0.1*sampling_rate`, because each append happens only
when that much wall-clock time has passed since `start`, and `start` is
reset to the appended reading. -/
theorem runCaviAux_true_chain {N P K : ℕ} (dg : ℝ → ℝ) (ψ : ℝ → ℝ → ℝ)
    (hN : 0 < N) (hP : 0 < P) (llOf : ℕ → VIState N P K → ℝ)
    (clock : ℕ → ℝ) (tInit samplingRate maxTime : ℝ) (eb : Bool)
    (fuel : ℕ) :
    ∀ (it : ℕ) (s : VIState N P K) (start : ℝ)
      (llIt llTime stamps : List ℝ),
      List.Chain (fun t u => samplingRate - 0.1 * samplingRate ≤ u - t)
        tInit stamps →
      start = stamps.getLastD tInit →
      List.Chain (fun t u => samplingRate - 0.1 * samplingRate ≤ u - t)
        tInit
        (runCaviAux dg ψ hN hP llOf clock tInit samplingRate maxTime eb
          true fuel it s start llIt llTime stamps).sampleTimes := by
  induction fuel with
  | zero => intro it s start llIt llTime stamps hch hstart; exact hch
  | succ fuel ih =>
      intro it s start llIt llTime stamps hch hstart
      by_cases h1 : samplingRate - 0.1 * samplingRate ≤ clock it - start
      · by_cases h2 : maxTime ≤ clock it - tInit
        · rw [runCaviAux_true_break_sample dg ψ hN hP llOf clock tInit
            samplingRate maxTime eb fuel it s start llIt llTime stamps h1 h2]
          show List.Chain
            (fun t u => samplingRate - 0.1 * samplingRate ≤ u - t) tInit
            (stamps ++ [clock it])
          rw [hstart] at h1
          exact chain_concat _ stamps tInit (clock it) hch h1
        · rw [runCaviAux_true_cont_sample dg ψ hN hP llOf clock tInit
            samplingRate maxTime eb fuel it s start llIt llTime stamps h1 h2]
          rw [hstart] at h1
          exact ih (it + 1) (s.sweep dg ψ hN hP eb) (clock it)
            (llIt ++ [llOf it (s.sweep dg ψ hN hP eb)])
            (llTime ++ [llOf it (s.sweep dg ψ hN hP eb)])
            (stamps ++ [clock it])
            (chain_concat _ stamps tInit (clock it) hch h1)
            (List.getLastD_concat tInit (clock it) stamps).symm
      · by_cases h2 : maxTime ≤ clock it - tInit
        · rw [runCaviAux_true_break_nosample dg ψ hN hP llOf clock tInit
            samplingRate maxTime eb fuel it s start llIt llTime stamps h1 h2]
          exact hch
        · rw [runCaviAux_true_cont_nosample dg ψ hN hP llOf clock tInit
            samplingRate maxTime eb fuel it s start llIt llTime stamps h1 h2]
          exact ih (it + 1) (s.sweep dg ψ hN hP eb) start
            (llIt ++ [llOf it (s.sweep dg ψ hN hP eb)]) llTime stamps
            hch hstart

/-- C5 (amended): the time budget is only enforced when `return_ll` is
set.  With `return_ll = False` the loop runs all `n_iterations`
iterations regardless of elapsed time and returns no traces; with
`return_ll = True` the loop never begins a new iteration once the
wall-clock reading at the end of an iteration has reached `max_time`
(it stops at the end of that iteration, or when `n_iterations`
complete), and returns both traces. -/
theorem run_cavi_time_budget {N P K : ℕ} (dg : ℝ → ℝ) (ψ : ℝ → ℝ → ℝ)
    (hN : 0 < N) (hP : 0 < P) (llOf : ℕ → VIState N P K → ℝ)
    (clock : ℕ → ℝ) (tInit : ℝ) (eb returnLL : Bool) (n : ℕ)
    (samplingRate maxTime : ℝ) (s : VIState N P K) :
    (returnLL = false →
      (s.run_cavi dg ψ hN hP llOf clock tInit eb returnLL n samplingRate
          maxTime).itCount = n ∧
        (s.run_cavi dg ψ hN hP llOf clock tInit eb returnLL n samplingRate
          maxTime).traces = none) ∧
      (returnLL = true →
        (s.run_cavi dg ψ hN hP llOf clock tInit eb returnLL n samplingRate
            maxTime).itCount ≤ n ∧
          (∀ k, k + 2 ≤ (s.run_cavi dg ψ hN hP llOf clock tInit eb returnLL
              n samplingRate maxTime).itCount →
            clock k - tInit < maxTime) ∧
          ((s.run_cavi dg ψ hN hP llOf clock tInit eb returnLL n
              samplingRate maxTime).itCount < n →
            0 < (s.run_cavi dg ψ hN hP llOf clock tInit eb returnLL n
              samplingRate maxTime).itCount ∧
              maxTime ≤ clock ((s.run_cavi dg ψ hN hP llOf clock tInit eb
                returnLL n samplingRate maxTime).itCount - 1) - tInit) ∧
          ∃ tr, (s.run_cavi dg ψ hN hP llOf clock tInit eb returnLL n
            samplingRate maxTime).traces = some tr) := by
  constructor
  · intro h
    subst h
    obtain ⟨h1, h2⟩ := runCaviAux_false_spec dg ψ hN hP llOf clock tInit
      samplingRate maxTime eb n 0 s tInit [] [] []
    have h1b : (s.run_cavi dg ψ hN hP llOf clock tInit eb false n
        samplingRate maxTime).itCount = 0 + n := h1
    exact ⟨by omega, h2⟩
  · intro h
    subst h
    refine ⟨?_, ?_, ?_, ?_⟩
    · have hb := (runCaviAux_true_bounds dg ψ hN hP llOf clock tInit
        samplingRate maxTime eb n 0 s tInit [] [] []).2
      have hb2 : (s.run_cavi dg ψ hN hP llOf clock tInit eb true n
          samplingRate maxTime).itCount ≤ 0 + n := hb
      omega
    · intro k hk
      exact runCaviAux_true_no_overrun dg ψ hN hP llOf clock tInit
        samplingRate maxTime eb n 0 s tInit [] [] [] k (Nat.zero_le k) hk
    · intro hlt
      have hlt2 : (s.run_cavi dg ψ hN hP llOf clock tInit eb true n
          samplingRate maxTime).itCount < 0 + n := by omega
      exact runCaviAux_true_stop_reason dg ψ hN hP llOf clock tInit
        samplingRate maxTime eb n 0 s tInit [] [] [] hlt2
    · obtain ⟨l1, l2, htr, _, _⟩ := runCaviAux_true_traces dg ψ hN hP llOf
        clock tInit samplingRate maxTime eb n 0 s tInit [] [] []
      exact ⟨(l1, l2), htr⟩

/-- Clock oracle used in the run-loop counterexamples: the `time.time()`
reading is 9 at the end of iteration 0 and 18 at the end of every later
iteration (the loop starts at time 0). -/
def cexClock : ℕ → ℝ := fun n => if n = 0 then 9 else 18

/-- Counterexample to C5 as stated: with `return_ll = False`,
`max_time = 1` and the clock already at 9 (≥ `max_time`) at the end of
iteration 0, the loop still runs both of its `n_iterations = 2`
iterations and returns no log-likelihood traces — the claim requires it
to stop after iteration 0 and to return both traces for every
configuration including `return_ll=False`. -/
theorem run_cavi_no_time_check_counterexample :
    (oneState.run_cavi (fun x => x) (fun _ y => y) one_pos one_pos
        (fun _ _ => 0) cexClock 0 false false 2 10 1).itCount = 2 ∧
      (oneState.run_cavi (fun x => x) (fun _ y => y) one_pos one_pos
        (fun _ _ => 0) cexClock 0 false false 2 10 1).traces = none ∧
      (1 : ℝ) ≤ cexClock 0 - 0 := by
  refine ⟨?_, ?_, by norm_num [cexClock]⟩
  · obtain ⟨h1, _⟩ := runCaviAux_false_spec (fun x => x) (fun _ y => y)
      one_pos one_pos (fun _ _ => 0) cexClock 0 10 1 false 2 0 oneState
      0 [] [] []
    exact h1
  · obtain ⟨_, h2⟩ := runCaviAux_false_spec (fun x => x) (fun _ y => y)
      one_pos one_pos (fun _ _ => 0) cexClock 0 10 1 false 2 0 oneState
      0 [] [] []
    exact h2

/-- Witness for the amended C5 with `return_ll = True` at a concrete
configuration. -/
theorem run_cavi_time_budget_witness :
    (oneState.run_cavi (fun x => x) (fun _ y => y) one_pos one_pos
        (fun _ _ => 0) cexClock 0 false true 2 10 1000).itCount ≤ 2 :=
  ((run_cavi_time_budget (fun x => x) (fun _ y => y) one_pos one_pos
    (fun _ _ => 0) cexClock 0 false true 2 10 1000 oneState).2 rfl).1

/-- C6 (amended): with `return_ll` set, one log-likelihood value is
appended to the per-iteration trace on every executed iteration, and
values are appended to the time-sampled trace only when at least
`sampling_rate - 0.1*sampling_rate` (not `sampling_rate`) seconds have
passed since the previous append (or since the loop start):
consecutive recorded sample times differ by at least
`sampling_rate - 0.1*sampling_rate` seconds. -/
theorem run_cavi_trace_sampling {N P K : ℕ} (dg : ℝ → ℝ) (ψ : ℝ → ℝ → ℝ)
    (hN : 0 < N) (hP : 0 < P) (llOf : ℕ → VIState N P K → ℝ)
    (clock : ℕ → ℝ) (tInit : ℝ) (eb : Bool) (n : ℕ)
    (samplingRate maxTime : ℝ) (s : VIState N P K) :
    (∃ l1 l2,
      (s.run_cavi dg ψ hN hP llOf clock tInit eb true n samplingRate
          maxTime).traces = some (l1, l2) ∧
        l1.length = (s.run_cavi dg ψ hN hP llOf clock tInit eb true n
          samplingRate maxTime).itCount ∧
        l2.length = (s.run_cavi dg ψ hN hP llOf clock tInit eb true n
          samplingRate maxTime).sampleTimes.length) ∧
      List.Chain (fun t u => samplingRate - 0.1 * samplingRate ≤ u - t)
        tInit
        (s.run_cavi dg ψ hN hP llOf clock tInit eb true n samplingRate
          maxTime).sampleTimes := by
  constructor
  · obtain ⟨l1, l2, htr, hb, hc⟩ := runCaviAux_true_traces dg ψ hN hP llOf
      clock tInit samplingRate maxTime eb n 0 s tInit [] [] []
    refine ⟨l1, l2, htr, ?_, ?_⟩
    · have hb2 : l1.length + 0 = List.length [] +
          (s.run_cavi dg ψ hN hP llOf clock tInit eb true n samplingRate
            maxTime).itCount := hb
      simp only [List.length_nil] at hb2
      omega
    · have hc2 : l2.length + List.length ([] : List ℝ) =
          List.length ([] : List ℝ) +
          (s.run_cavi dg ψ hN hP llOf clock tInit eb true n samplingRate
            maxTime).sampleTimes.length := hc
      simp only [List.length_nil] at hc2
      omega
  · exact runCaviAux_true_chain dg ψ hN hP llOf clock tInit samplingRate
      maxTime eb n 0 s tInit [] [] [] List.Chain.nil rfl

/-- Counterexample to C6 as stated: with `sampling_rate = 10` and
wall-clock readings 9 (iteration 0) and 18 (iteration 1), both readings
trigger an append to the time-sampled trace (both gaps are exactly 9 =
`sampling_rate - 0.1*sampling_rate`), so the trace receives two entries
whose append times are 9 seconds apart — less than the claimed minimum
spacing of `sampling_rate = 10` seconds. -/
theorem run_cavi_sampling_counterexample :
    (oneState.run_cavi (fun x => x) (fun _ y => y) one_pos one_pos
        (fun _ _ => 0) cexClock 0 false true 2 10 1000).sampleTimes =
      [9, 18] ∧
      (oneState.run_cavi (fun x => x) (fun _ y => y) one_pos one_pos
        (fun _ _ => 0) cexClock 0 false true 2 10 1000).traces =
        some ([0, 0], [0, 0]) ∧
      ¬ ((10 : ℝ) ≤ 18 - 9) := by
  have hc0 : cexClock 0 = 9 := rfl
  have hc1 : cexClock 1 = 18 := rfl
  have e1 : runCaviAux (fun x => x) (fun _ y => y) one_pos one_pos
      (fun _ _ => 0) cexClock 0 10 1000 false true 2 0 oneState 0
      [] [] [] =
      runCaviAux (fun x => x) (fun _ y => y) one_pos one_pos
        (fun _ _ => 0) cexClock 0 10 1000 false true 1 1
        (oneState.sweep (fun x => x) (fun _ y => y) one_pos one_pos false)
        9 [0] [0] [9] := by
    have h1 : (10 : ℝ) - 0.1 * 10 ≤ cexClock 0 - 0 := by
      rw [hc0]; norm_num
    have h2 : ¬ ((1000 : ℝ) ≤ cexClock 0 - 0) := by
      rw [hc0]; norm_num
    exact runCaviAux_true_cont_sample (fun x => x) (fun _ y => y) one_pos
      one_pos (fun _ _ => 0) cexClock 0 10 1000 false 1 0 oneState 0
      [] [] [] h1 h2
  have e2 : runCaviAux (fun x => x) (fun _ y => y) one_pos one_pos
      (fun _ _ => 0) cexClock 0 10 1000 false true 1 1
      (oneState.sweep (fun x => x) (fun _ y => y) one_pos one_pos false)
      9 [0] [0] [9] =
      runCaviAux (fun x => x) (fun _ y => y) one_pos one_pos
        (fun _ _ => 0) cexClock 0 10 1000 false true 0 2
        ((oneState.sweep (fun x => x) (fun _ y => y) one_pos one_pos
          false).sweep (fun x => x) (fun _ y => y) one_pos one_pos false)
        18 [0, 0] [0, 0] [9, 18] := by
    have h1 : (10 : ℝ) - 0.1 * 10 ≤ cexClock 1 - 9 := by
      rw [hc1]; norm_num
    have h2 : ¬ ((1000 : ℝ) ≤ cexClock 1 - 0) := by
      rw [hc1]; norm_num
    exact runCaviAux_true_cont_sample (fun x => x) (fun _ y => y) one_pos
      one_pos (fun _ _ => 0) cexClock 0 10 1000 false 0 1
      (oneState.sweep (fun x => x) (fun _ y => y) one_pos one_pos false)
      9 [0] [0] [9] h1 h2
  refine ⟨?_, ?_, by norm_num⟩
  · show (runCaviAux (fun x => x) (fun _ y => y) one_pos one_pos
      (fun _ _ => 0) cexClock 0 10 1000 false true 2 0 oneState 0
      [] [] []).sampleTimes = [9, 18]
    rw [e1, e2]
    rfl
  · show (runCaviAux (fun x => x) (fun _ y => y) one_pos one_pos
      (fun _ _ => 0) cexClock 0 10 1000 false true 2 0 oneState 0
      [] [] []).traces = some ([0, 0], [0, 0])
    rw [e1, e2]
    rfl

/-- Witness for the amended C6 at a concrete configuration. -/
theorem run_cavi_trace_sampling_witness :
    List.Chain (fun t u => (10 : ℝ) - 0.1 * 10 ≤ u - t) 0
      (oneState.run_cavi (fun x => x) (fun _ y => y) one_pos one_pos
        (fun _ _ => 0) cexClock 0 false true 2 10 1000).sampleTimes :=
  (run_cavi_trace_sampling (fun x => x) (fun _ y => y) one_pos one_pos
    (fun _ _ => 0) cexClock 0 false 2 10 1000 oneState).2

end PCMF
